import Mathlib

/-!
Verification of the InspectorIssues gatherer
(`lighthouse-core/gather/gatherers/inspector-issues.js`).

The artifact builder `_getArtifact(networkRecords)` is embedded as a pure
function over an explicit model of the JavaScript values it touches; the
possibility of a thrown TypeError (reading `.requestId` off a null `request`
property) is made explicit with `Except`.  The instrumentation lifecycle
(`startInstrumentation`) is embedded as state passing over a session record
whose primitive operations are modelled from the spec, since the protocol
session itself is an external collaborator.
-/

namespace InspectorIssues

/-- A CDP AffectedRequest object: `requestId` is `none` when the property is
absent (a read yields `undefined` in JS). -/
structure AffectedRequest where
  requestId : Option String
  deriving DecidableEq, Repr

/-- The JS value stored at a detail's own `request` property.  `reqNull`
models `null` (or `undefined`): reading `.requestId` off it throws a
TypeError.  `reqObj` models an object (the well-typed case). -/
inductive ReqVal where
  | reqNull : ReqVal
  | reqObj : AffectedRequest → ReqVal
  deriving DecidableEq, Repr

/-- One issue-detail payload.  `request = none` models a detail object with
no own `request` property (so `hasOwnProperty` is false); `payload` stands
for all remaining, opaque fields of the detail. -/
structure IssueDetail where
  request : Option ReqVal
  payload : Nat
  deriving DecidableEq, Repr

/-- A raw issue as buffered by `onIssueAdded`.  Its `details` object is an
association list from property name to stored value: a stored `none` models
a falsy value such as `null`, and a missing key reads as `undefined`. -/
structure Issue where
  details : List (String × Option IssueDetail)
  deriving DecidableEq, Repr

/-- A network record from the supplied `networkRecords` list; `payload`
stands for every field other than `requestId`. -/
structure NetworkRequest where
  requestId : String
  payload : Nat
  deriving DecidableEq, Repr

/-- The JS property read `issue.details[detailsKey]`: `none` when the key is
absent or its stored value is falsy (both are skipped by `if (detail)`). -/
def getProp (dets : List (String × Option IssueDetail)) (k : String) :
    Option IssueDetail :=
  match dets.lookup k with
  | some v => v
  | none => none

/-- The fifteen artifact keys, in the insertion order of the object literal
in `_getArtifact` (the order `Object.keys` returns). -/
def artifactKeys : List String :=
  ["sameSiteCookieIssue", "mixedContentIssue", "blockedByResponseIssue",
   "heavyAdIssue", "contentSecurityPolicyIssue", "sharedArrayBufferIssue",
   "twaQualityEnforcement", "lowTextContrastIssue", "corsIssue",
   "attributionReportingIssue", "quirksModeIssue", "navigatorUserAgentIssue",
   "wasmCrossOriginModuleSharingIssue", "genericIssue", "deprecationIssue"]

/-- The `detailsKey` computation of `_getArtifact`: the category key with
`Details` appended, except for the wasm category, which is used verbatim. -/
def detailsKey (key : String) : String :=
  if key = "wasmCrossOriginModuleSharingIssue" then key else key ++ "Details"

/-- The decision the inner loop body of `_getArtifact` takes for one truthy
detail: details without an own `request` property are pushed unconditionally;
otherwise `detail.request.requestId` is read (throwing a TypeError when
`request` holds null) and the detail is pushed exactly when that id is truthy
and `networkRecords.find` locates a record with an equal id. -/
def detailIncluded (networkRecords : List NetworkRequest) (d : IssueDetail) :
    Except String Bool :=
  match d.request with
  | none => .ok true
  | some .reqNull => .error "TypeError"
  | some (.reqObj r) =>
    match r.requestId with
    | none => .ok false
    | some rid =>
      .ok ((rid != "") && networkRecords.any fun req => req.requestId == rid)

/-- The inner loop of `_getArtifact` over `allDetails` for one category:
falsy entries are skipped, included details are appended in order, and a
thrown TypeError aborts the whole build. -/
def pushDetails (networkRecords : List NetworkRequest) :
    List (Option IssueDetail) → Except String (List IssueDetail)
  | [] => .ok []
  | none :: rest => pushDetails networkRecords rest
  | some d :: rest =>
    match detailIncluded networkRecords d with
    | .error e => .error e
    | .ok false => pushDetails networkRecords rest
    | .ok true =>
      match pushDetails networkRecords rest with
      | .error e => .error e
      | .ok tail => .ok (d :: tail)

/-- One iteration of the outer `for (const key of keys)` loop: map every
buffered issue to its sub-field at `detailsKey key`, then run the inner
loop. -/
def buildCategory (issues : List Issue) (networkRecords : List NetworkRequest)
    (key : String) : Except String (List IssueDetail) :=
  pushDetails networkRecords
    (issues.map fun issue => getProp issue.details (detailsKey key))

/-- The outer loop of `_getArtifact` over a list of keys, producing the
artifact as an ordered association list; a throw in any category aborts. -/
def buildAll (issues : List Issue) (networkRecords : List NetworkRequest) :
    List String → Except String (List (String × List IssueDetail))
  | [] => .ok []
  | k :: ks =>
    match buildCategory issues networkRecords k with
    | .error e => .error e
    | .ok cat =>
      match buildAll issues networkRecords ks with
      | .error e => .error e
      | .ok rest => .ok ((k, cat) :: rest)

/-- The whole of `_getArtifact`: the buffered issues and the supplied
network records yield the artifact, or the thrown error. -/
def getArtifact (issues : List Issue) (networkRecords : List NetworkRequest) :
    Except String (List (String × List IssueDetail)) :=
  buildAll issues networkRecords artifactKeys

/-- The boolean inclusion decision in the non-throwing case: `true` exactly
when `detailIncluded` returns `.ok true`. -/
def includedB (networkRecords : List NetworkRequest) (d : IssueDetail) : Bool :=
  ((detailIncluded networkRecords d).toOption).getD false

/-- A buffer is safe when no stored detail's own `request` property holds
null; the CRDP type of every detail guarantees this for protocol-conformant
events. -/
def safeBuffer (issues : List Issue) : Prop :=
  ∀ i ∈ issues, ∀ (k : String) (v : IssueDetail),
    (k, some v) ∈ i.details → v.request ≠ some ReqVal.reqNull

/-- Modelled from the spec: the sub-field naming rule as the spec states it,
the uniform key-plus-Details rule with the wasm category used verbatim;
kept separate from `detailsKey` so the code's read key can be compared
against the spec's rule. -/
def specSubFieldName (key : String) : String :=
  if key = "wasmCrossOriginModuleSharingIssue" then key else key ++ "Details"

/-- An observable operation performed on the protocol session. -/
inductive SessionAction where
  | on : String → SessionAction
  | send : String → SessionAction
  deriving DecidableEq, Repr

/-- Modelled from the spec: the protocol session is an external collaborator
exposing handler registration and command sending.  `log` is the ordered
trace of operations performed on it, `handlers` the currently registered
event names, and `cmdResult` the session's (externally determined) response
to each command. -/
structure Session where
  log : List SessionAction
  handlers : List String
  cmdResult : String → Except String Unit

/-- Modelled from the spec: `session.on(evt, handler)` registers a handler
and returns; it cannot fail. -/
def Session.on (s : Session) (evt : String) : Session :=
  { s with log := s.log ++ [.on evt], handlers := s.handlers ++ [evt] }

/-- Modelled from the spec: `await session.sendCommand(cmd)` performs the
send and yields the session's response, which the caller awaits; a rejection
surfaces as the `Except` error. -/
def Session.sendCommand (s : Session) (cmd : String) :
    Session × Except String Unit :=
  ({ s with log := s.log ++ [.send cmd] }, s.cmdResult cmd)

/-- The body of `startInstrumentation` from the source: register
`_onIssueAdded` for the `Audits.issueAdded` event on the default session,
then send `Audits.enable` and return its result. -/
def startInstrumentation (s : Session) : Session × Except String Unit :=
  (s.on "Audits.issueAdded").sendCommand "Audits.enable"

theorem lookup_mem (k : String) (v : Option IssueDetail) :
    ∀ l : List (String × Option IssueDetail), l.lookup k = some v → (k, v) ∈ l := by
  intro l
  induction l with
  | nil => intro h; simp [List.lookup] at h
  | cons p t ih =>
    obtain ⟨a, b⟩ := p
    intro h
    rw [List.lookup] at h
    by_cases hk : k = a
    · subst hk
      simp only [beq_self_eq_true] at h
      cases h
      exact List.mem_cons_self _ _
    · have hba : (k == a) = false := beq_eq_false_iff_ne.mpr hk
      rw [hba] at h
      exact List.mem_cons_of_mem _ (ih h)

theorem getProp_eq_some (dets : List (String × Option IssueDetail)) (k : String)
    (d : IssueDetail) (h : getProp dets k = some d) : (k, some d) ∈ dets := by
  unfold getProp at h
  cases hl : dets.lookup k with
  | none => rw [hl] at h; exact absurd h (by simp)
  | some v => rw [hl] at h; subst h; exact lookup_mem _ _ _ hl

theorem pushDetails_ok_eq (nr : List NetworkRequest) (l : List (Option IssueDetail)) :
    ∀ out : List IssueDetail, pushDetails nr l = .ok out →
      out = l.reduceOption.filter (includedB nr) := by
  induction l with
  | nil =>
    intro out h
    simp only [pushDetails, Except.ok.injEq] at h
    simp [← h]
  | cons x rest ih =>
    intro out h
    cases x with
    | none =>
      rw [List.reduceOption_cons_of_none]
      exact ih out h
    | some d =>
      rw [List.reduceOption_cons_of_some, List.filter_cons]
      unfold pushDetails at h
      cases hdi : detailIncluded nr d with
      | error e => rw [hdi] at h; exact absurd h (by simp)
      | ok b =>
        rw [hdi] at h
        cases b with
        | false =>
          have hinc : includedB nr d = false := by
            simp [includedB, hdi, Except.toOption]
          rw [hinc]
          simpa using ih out h
        | true =>
          have hinc : includedB nr d = true := by
            simp [includedB, hdi, Except.toOption]
          cases hrest : pushDetails nr rest with
          | error e => rw [hrest] at h; exact absurd h (by simp)
          | ok tail =>
            rw [hrest] at h
            simp only [Except.ok.injEq] at h
            rw [← h, ih tail hrest]
            simp [hinc]

theorem mem_buildCategory (issues : List Issue) (nr : List NetworkRequest)
    (key : String) (out : List IssueDetail)
    (hb : buildCategory issues nr key = .ok out) (d : IssueDetail) :
    d ∈ out ↔
      (some d ∈ issues.map fun i => getProp i.details (detailsKey key)) ∧
        includedB nr d = true := by
  rw [pushDetails_ok_eq nr _ out hb, List.mem_filter, List.reduceOption_mem_iff]

theorem includedB_of_noReq (nr : List NetworkRequest) (d : IssueDetail)
    (hd : d.request = none) : includedB nr d = true := by
  obtain ⟨req, p⟩ := d
  cases hd
  rfl

theorem includedB_of_reqObj (nr : List NetworkRequest) (d : IssueDetail)
    (r : AffectedRequest) (hd : d.request = some (.reqObj r)) :
    (includedB nr d = true ↔
      ∃ s, r.requestId = some s ∧ s ≠ "" ∧ ∃ rec ∈ nr, rec.requestId = s) := by
  obtain ⟨req, p⟩ := d
  simp only at hd
  subst hd
  cases hr : r.requestId with
  | none => simp [includedB, detailIncluded, hr, Except.toOption]
  | some rid =>
    simp only [includedB, detailIncluded, hr, Except.toOption, Option.getD_some,
      Bool.and_eq_true, bne_iff_ne, ne_eq, List.any_eq_true, beq_iff_eq,
      Option.some.injEq]
    constructor
    · rintro ⟨hne, rec, hrec, hid⟩
      exact ⟨rid, rfl, hne, rec, hrec, hid⟩
    · rintro ⟨s, hs, hne, rec, hrec, hid⟩
      cases hs
      exact ⟨hne, rec, hrec, hid⟩

theorem buildAll_keys (issues : List Issue) (nr : List NetworkRequest) :
    ∀ (ks : List String) (a : List (String × List IssueDetail)),
      buildAll issues nr ks = .ok a → a.map Prod.fst = ks := by
  intro ks
  induction ks with
  | nil =>
    intro a h
    simp only [buildAll, Except.ok.injEq] at h
    simp [← h]
  | cons k t ih =>
    intro a h
    unfold buildAll at h
    cases hc : buildCategory issues nr k with
    | error e => rw [hc] at h; exact absurd h (by simp)
    | ok cat =>
      rw [hc] at h
      cases hr : buildAll issues nr t with
      | error e => rw [hr] at h; exact absurd h (by simp)
      | ok rest =>
        rw [hr] at h
        simp only [Except.ok.injEq] at h
        rw [← h]
        simp [ih rest hr]

theorem detailIncluded_isOk (nr : List NetworkRequest) (d : IssueDetail)
    (hd : d.request ≠ some ReqVal.reqNull) :
    ∃ b, detailIncluded nr d = .ok b := by
  obtain ⟨req, p⟩ := d
  cases req with
  | none => exact ⟨true, rfl⟩
  | some rv =>
    cases rv with
    | reqNull => exact absurd rfl hd
    | reqObj r =>
      cases hr : r.requestId with
      | none => exact ⟨false, by simp [detailIncluded, hr]⟩
      | some rid =>
        exact ⟨(rid != "") && nr.any fun req => req.requestId == rid,
          by simp [detailIncluded, hr]⟩

theorem pushDetails_ok_of_safe (nr : List NetworkRequest) :
    ∀ l : List (Option IssueDetail),
      (∀ d : IssueDetail, some d ∈ l → d.request ≠ some ReqVal.reqNull) →
      ∃ out, pushDetails nr l = .ok out := by
  intro l
  induction l with
  | nil => exact fun _ => ⟨[], rfl⟩
  | cons x rest ih =>
    intro hsafe
    have hrest := ih fun d hd => hsafe d (List.mem_cons_of_mem _ hd)
    cases x with
    | none => exact hrest
    | some d =>
      obtain ⟨b, hb⟩ := detailIncluded_isOk nr d (hsafe d (List.mem_cons_self _ _))
      obtain ⟨tail, ht⟩ := hrest
      cases b with
      | false => exact ⟨tail, by unfold pushDetails; rw [hb]; exact ht⟩
      | true => exact ⟨d :: tail, by unfold pushDetails; rw [hb, ht]⟩

theorem buildCategory_ok_of_safe (issues : List Issue) (nr : List NetworkRequest)
    (key : String) (hsafe : safeBuffer issues) :
    ∃ out, buildCategory issues nr key = .ok out := by
  apply pushDetails_ok_of_safe
  intro d hd
  rw [List.mem_map] at hd
  obtain ⟨i, hi, hgp⟩ := hd
  exact hsafe i hi _ d (getProp_eq_some _ _ _ hgp)

theorem buildAll_ok_of_safe (issues : List Issue) (nr : List NetworkRequest)
    (hsafe : safeBuffer issues) :
    ∀ ks : List String, ∃ a, buildAll issues nr ks = .ok a := by
  intro ks
  induction ks with
  | nil => exact ⟨[], rfl⟩
  | cons k t ih =>
    obtain ⟨cat, hc⟩ := buildCategory_ok_of_safe issues nr k hsafe
    obtain ⟨rest, hr⟩ := ih
    exact ⟨(k, cat) :: rest, by unfold buildAll; rw [hc, hr]⟩

theorem pushDetails_mid_none (nr : List NetworkRequest) :
    ∀ l1 l2 : List (Option IssueDetail),
      pushDetails nr (l1 ++ none :: l2) = pushDetails nr (l1 ++ l2) := by
  intro l1
  induction l1 with
  | nil => intro l2; rfl
  | cons x t ih =>
    intro l2
    cases x with
    | none => simpa [pushDetails] using ih l2
    | some d =>
      simp only [List.cons_append, pushDetails, List.append_eq]
      rw [ih l2]

theorem detailIncluded_congr (n1 n2 : List NetworkRequest)
    (h : ∀ s : String, (∃ r ∈ n1, r.requestId = s) ↔ (∃ r ∈ n2, r.requestId = s))
    (d : IssueDetail) : detailIncluded n1 d = detailIncluded n2 d := by
  obtain ⟨req, p⟩ := d
  cases req with
  | none => rfl
  | some rv =>
    cases rv with
    | reqNull => rfl
    | reqObj r =>
      cases hr : r.requestId with
      | none => simp [detailIncluded, hr]
      | some rid =>
        simp only [detailIncluded, hr, Except.ok.injEq]
        have hany : (n1.any fun req => req.requestId == rid) =
            (n2.any fun req => req.requestId == rid) := by
          rw [Bool.eq_iff_iff]
          simp only [List.any_eq_true, beq_iff_eq]
          exact h rid
        rw [hany]

theorem pushDetails_congr (n1 n2 : List NetworkRequest)
    (h : ∀ d : IssueDetail, detailIncluded n1 d = detailIncluded n2 d) :
    ∀ l : List (Option IssueDetail), pushDetails n1 l = pushDetails n2 l := by
  intro l
  induction l with
  | nil => rfl
  | cons x t ih =>
    cases x with
    | none => simpa [pushDetails] using ih
    | some d =>
      simp only [pushDetails]
      rw [h d, ih]

theorem buildAll_congr (issues : List Issue) (n1 n2 : List NetworkRequest)
    (h : ∀ key, buildCategory issues n1 key = buildCategory issues n2 key) :
    ∀ ks : List String, buildAll issues n1 ks = buildAll issues n2 ks := by
  intro ks
  induction ks with
  | nil => rfl
  | cons k t ih =>
    simp only [buildAll]
    rw [h k, ih]

theorem buildAll_nil_issues (nr : List NetworkRequest) :
    ∀ ks : List String,
      buildAll [] nr ks = .ok (ks.map fun k => (k, ([] : List IssueDetail))) := by
  intro ks
  induction ks with
  | nil => rfl
  | cons k t ih =>
    simp only [buildAll, List.map_cons]
    rw [ih]
    rfl

theorem buildCategory_single (key n : String) (d : IssueDetail)
    (hd : d.request = none) (nr : List NetworkRequest) :
    buildCategory [⟨[(n, some d)]⟩] nr key =
      .ok (if detailsKey key = n then [d] else []) := by
  unfold buildCategory getProp
  by_cases h : detailsKey key = n
  · have hb : (detailsKey key == n) = true := beq_iff_eq.mpr h
    simp only [List.map_cons, List.map_nil, List.lookup, hb, if_pos h]
    obtain ⟨req, p⟩ := d
    cases hd
    rfl
  · have hb : (detailsKey key == n) = false := beq_eq_false_iff_ne.mpr h
    simp only [List.map_cons, List.map_nil, List.lookup, hb, if_neg h]
    rfl

/-- C1 fails as stated: the buffered cors detail carries a request reference
whose request identifier "" equals the identifier of the sole supplied
network record, yet the detail is absent from the cors category's sequence,
because the code additionally requires the identifier to be truthy before
consulting the record list. -/
theorem c1_counterexample :
    (⟨"", 7⟩ : NetworkRequest).requestId = "" ∧
    buildCategory
        [⟨[("corsIssueDetails", some ⟨some (.reqObj ⟨some ""⟩), 0⟩)]⟩]
        [⟨"", 7⟩] "corsIssue" = .ok [] :=
  ⟨rfl, rfl⟩

/-- C1 (amended): a buffered sub-field detail that carries a request
reference appears in that category's output sequence iff its referenced
request identifier is a truthy (non-empty) string equal to the request
identifier of some supplied network record; a detail carrying no request
reference appears iff it occurs as that category's sub-field of some
buffered issue, i.e. it is appended unconditionally. -/
theorem c1_request_filter_amended (issues : List Issue)
    (nr : List NetworkRequest) (key : String) (out : List IssueDetail)
    (hb : buildCategory issues nr key = .ok out) (d : IssueDetail) :
    (∀ r : AffectedRequest, d.request = some (.reqObj r) →
      (d ∈ out ↔
        (some d ∈ issues.map fun i => getProp i.details (detailsKey key)) ∧
          ∃ s, r.requestId = some s ∧ s ≠ "" ∧
            ∃ rec ∈ nr, rec.requestId = s)) ∧
    (d.request = none →
      (d ∈ out ↔
        some d ∈ issues.map fun i => getProp i.details (detailsKey key))) := by
  constructor
  · intro r hr
    rw [mem_buildCategory issues nr key out hb d]
    exact and_congr Iff.rfl (includedB_of_reqObj nr d r hr)
  · intro hd
    rw [mem_buildCategory issues nr key out hb d]
    simp [includedB_of_noReq nr d hd]

theorem c1_request_filter_amended_witness :
    (⟨some (.reqObj ⟨some "r1"⟩), 0⟩ : IssueDetail) ∈
      ([⟨some (.reqObj ⟨some "r1"⟩), 0⟩] : List IssueDetail) :=
  ((c1_request_filter_amended
      [⟨[("corsIssueDetails", some ⟨some (.reqObj ⟨some "r1"⟩), 0⟩)]⟩]
      [⟨"r1", 5⟩] "corsIssue" [⟨some (.reqObj ⟨some "r1"⟩), 0⟩] rfl
      ⟨some (.reqObj ⟨some "r1"⟩), 0⟩).1 ⟨some "r1"⟩ rfl).mpr
    ⟨by decide, "r1", rfl, by decide, ⟨"r1", 5⟩, by decide, rfl⟩

/-- C2 fails as stated: a buffered issue whose cors sub-field detail has an
own request property holding null makes the build throw a TypeError (the
code reads `.requestId` off the null reference), rather than silently
skipping the malformed entry. -/
theorem c2_counterexample :
    getArtifact [⟨[("corsIssueDetails", some ⟨some ReqVal.reqNull, 0⟩)]⟩] [] =
      .error "TypeError" :=
  rfl

/-- C2 (amended): for every buffer in which no stored detail's own request
property holds null or undefined, and every network-record list, the build
completes normally; absent, falsy or otherwise malformed sub-fields and
non-matching or falsy request identifiers are silently skipped without
raising. -/
theorem c2_no_throw_amended (issues : List Issue) (nr : List NetworkRequest)
    (hsafe : safeBuffer issues) : ∃ a, getArtifact issues nr = .ok a :=
  buildAll_ok_of_safe issues nr hsafe artifactKeys

theorem c2_no_throw_amended_witness :
    ∃ a, getArtifact [⟨[("genericIssueDetails", some ⟨none, 3⟩)]⟩] [] =
      .ok a :=
  c2_no_throw_amended _ _ (by
    intro i hi k v hv
    simp only [List.mem_singleton] at hi
    subst hi
    simp only [List.mem_singleton, Prod.mk.injEq, Option.some.injEq] at hv
    obtain ⟨-, hv⟩ := hv
    subst hv
    simp)

/-- C3: whenever the build returns an artifact, the artifact's keys are
exactly the fifteen fixed category keys, in order, no more and no fewer,
each mapped to a sequence. -/
theorem c3_fixed_keys (issues : List Issue) (nr : List NetworkRequest)
    (a : List (String × List IssueDetail)) (h : getArtifact issues nr = .ok a) :
    a.map Prod.fst =
      ["sameSiteCookieIssue", "mixedContentIssue", "blockedByResponseIssue",
       "heavyAdIssue", "contentSecurityPolicyIssue", "sharedArrayBufferIssue",
       "twaQualityEnforcement", "lowTextContrastIssue", "corsIssue",
       "attributionReportingIssue", "quirksModeIssue",
       "navigatorUserAgentIssue", "wasmCrossOriginModuleSharingIssue",
       "genericIssue", "deprecationIssue"] :=
  buildAll_keys issues nr artifactKeys a h

theorem c3_fixed_keys_witness :
    (artifactKeys.map fun k => (k, ([] : List IssueDetail))).map Prod.fst =
      ["sameSiteCookieIssue", "mixedContentIssue", "blockedByResponseIssue",
       "heavyAdIssue", "contentSecurityPolicyIssue", "sharedArrayBufferIssue",
       "twaQualityEnforcement", "lowTextContrastIssue", "corsIssue",
       "attributionReportingIssue", "quirksModeIssue",
       "navigatorUserAgentIssue", "wasmCrossOriginModuleSharingIssue",
       "genericIssue", "deprecationIssue"] :=
  c3_fixed_keys [] [] (artifactKeys.map fun k => (k, [])) (by rfl)

/-- C5: within one category, output order equals buffer arrival order: the
category's sequence is a subsequence of the buffered issues' sub-field
details taken in buffer order, so if issue i precedes issue j in the buffer
and both contribute, the detail from i precedes the detail from j. -/
theorem c5_order_preserved (issues : List Issue) (nr : List NetworkRequest)
    (key : String) (out : List IssueDetail)
    (hb : buildCategory issues nr key = .ok out) :
    out.Sublist
      ((issues.map fun i => getProp i.details (detailsKey key)).reduceOption) := by
  rw [pushDetails_ok_eq nr _ out hb]
  exact List.filter_sublist _

theorem c5_order_preserved_witness :
    ([⟨none, 1⟩, ⟨none, 2⟩] : List IssueDetail).Sublist
      ((([⟨[("genericIssueDetails", some ⟨none, 1⟩)]⟩,
          ⟨[("genericIssueDetails", some ⟨none, 2⟩)]⟩] : List Issue).map
        fun i => getProp i.details (detailsKey "genericIssue")).reduceOption) :=
  c5_order_preserved _ [] "genericIssue" _ rfl

/-- C4: for every category key, the sub-field the code reads off a raw
event's details object is named by the uniform key-plus-Details rule, with
the wasm category's sub-field name being the key verbatim: an event storing
a request-free detail under that sub-field name contributes it to the
category, and an event storing it under any other name contributes
nothing. -/
theorem c4_subfield_naming (key : String) (_hkey : key ∈ artifactKeys)
    (n : String) (d : IssueDetail) (hd : d.request = none)
    (nr : List NetworkRequest) :
    buildCategory [⟨[(n, some d)]⟩] nr key =
      .ok (if n = specSubFieldName key then [d] else []) := by
  rw [buildCategory_single key n d hd nr]
  have hsame : detailsKey key = specSubFieldName key := rfl
  rw [hsame]
  by_cases h : n = specSubFieldName key
  · rw [if_pos h.symm, if_pos h]
  · rw [if_neg fun hh => h hh.symm, if_neg h]

theorem c4_subfield_naming_witness :
    buildCategory [⟨[("wasmCrossOriginModuleSharingIssue", some ⟨none, 7⟩)]⟩]
        [] "wasmCrossOriginModuleSharingIssue" =
      .ok (if "wasmCrossOriginModuleSharingIssue" =
            specSubFieldName "wasmCrossOriginModuleSharingIssue"
          then [⟨none, 7⟩] else []) :=
  c4_subfield_naming "wasmCrossOriginModuleSharingIssue" (by decide)
    "wasmCrossOriginModuleSharingIssue" ⟨none, 7⟩ rfl []

/-- C6: category isolation — a buffered event whose details object stores
nothing at a category's sub-field contributes nothing to that category
(removing the event leaves the category's sequence unchanged), and a
category's sequence depends on each event only through that category's own
sub-field, so several populated sub-fields on one event are processed
independently into their respective categories. -/
theorem c6_category_isolation :
    (∀ (pre post : List Issue) (I : Issue) (nr : List NetworkRequest)
        (k : String), getProp I.details (detailsKey k) = none →
      buildCategory (pre ++ I :: post) nr k =
        buildCategory (pre ++ post) nr k) ∧
    (∀ (pre post : List Issue) (I J : Issue) (nr : List NetworkRequest)
        (k : String),
        getProp I.details (detailsKey k) = getProp J.details (detailsKey k) →
      buildCategory (pre ++ I :: post) nr k =
        buildCategory (pre ++ J :: post) nr k) := by
  constructor
  · intro pre post I nr k h
    unfold buildCategory
    rw [List.map_append, List.map_append, List.map_cons, h]
    exact pushDetails_mid_none nr _ _
  · intro pre post I J nr k h
    unfold buildCategory
    rw [List.map_append, List.map_append, List.map_cons, List.map_cons, h]

theorem c6_category_isolation_witness :
    buildCategory [⟨[("genericIssueDetails", some ⟨none, 4⟩)]⟩] []
        "corsIssue" =
      buildCategory [] [] "corsIssue" :=
  c6_category_isolation.1 [] [] ⟨[("genericIssueDetails", some ⟨none, 4⟩)]⟩ []
    "corsIssue" (by decide)

/-- C7: the artifact builder is deterministic — identical buffer contents
and identical network-record lists yield identical artifacts, including
identical ordering within every category's sequence, the build being a pure
function of its two inputs. -/
theorem c7_deterministic (b1 b2 : List Issue) (n1 n2 : List NetworkRequest)
    (hb : b1 = b2) (hn : n1 = n2) : getArtifact b1 n1 = getArtifact b2 n2 := by
  rw [hb, hn]

theorem c7_deterministic_witness :
    getArtifact [⟨[("corsIssueDetails", some ⟨none, 1⟩)]⟩] [⟨"a", 0⟩] =
      getArtifact [⟨[("corsIssueDetails", some ⟨none, 1⟩)]⟩] [⟨"a", 0⟩] :=
  c7_deterministic _ _ _ _ rfl rfl

/-- C8: building from an empty buffer yields, for every network-record
list, the artifact in which every one of the fifteen category keys maps to
an empty sequence. -/
theorem c8_empty_buffer (nr : List NetworkRequest) :
    getArtifact [] nr =
      .ok (artifactKeys.map fun k => (k, ([] : List IssueDetail))) :=
  buildAll_nil_issues nr artifactKeys

/-- C9: startInstrumentation appends the handler registration to the
session trace strictly before the enable send, leaves the handler
registered whatever the command's outcome, and returns the session's
response to the enable command unchanged, so a rejection propagates to the
caller while the already-performed registration is not undone. -/
theorem c9_start_instrumentation (s : Session) :
    (startInstrumentation s).1.log =
        s.log ++ [.on "Audits.issueAdded", .send "Audits.enable"] ∧
    (startInstrumentation s).1.handlers =
        s.handlers ++ ["Audits.issueAdded"] ∧
    (startInstrumentation s).2 = s.cmdResult "Audits.enable" := by
  refine ⟨?_, rfl, rfl⟩
  simp [startInstrumentation, Session.on, Session.sendCommand]

/-- C10: the artifact depends on the network-record list only through the
set of request identifiers occurring in it — two lists carrying the same
identifiers yield identical builds on every buffer, regardless of record
order, multiplicity, or any other record fields. -/
theorem c10_only_request_ids (issues : List Issue)
    (n1 n2 : List NetworkRequest)
    (h : ∀ s : String,
      (∃ r ∈ n1, r.requestId = s) ↔ (∃ r ∈ n2, r.requestId = s)) :
    getArtifact issues n1 = getArtifact issues n2 :=
  buildAll_congr issues n1 n2
    (fun _ => pushDetails_congr n1 n2 (detailIncluded_congr n1 n2 h) _)
    artifactKeys

theorem c10_only_request_ids_witness :
    getArtifact
        [⟨[("corsIssueDetails", some ⟨some (.reqObj ⟨some "a"⟩), 0⟩)]⟩]
        [⟨"a", 0⟩, ⟨"a", 1⟩] =
      getArtifact
        [⟨[("corsIssueDetails", some ⟨some (.reqObj ⟨some "a"⟩), 0⟩)]⟩]
        [⟨"a", 9⟩] :=
  c10_only_request_ids _ _ _ (by intro s; simp)

end InspectorIssues
